import Mathlib

/-!
Verification development for the All-in-or-Fold MCCFR solver.

The definitions below are a shallow embedding of the C++ sources:
  * `src/include/aof/*.hpp`, `src/src/aof/game_state.cpp`,
    `src/src/aof/poker_evaluator.cpp` (the `aof` game engine),
  * `src/src/mccfr/node.cpp` (the regret-matching node).
Chip amounts (C++ `double`) are modelled as exact rationals `ℚ`; per-seat
vectors are Lean lists; the `std::set<int>` of all-in players is a sorted
list; the deck is a list whose head is the next card to be dealt (the C++
`Deck` deals from the back of its shuffled vector, so the embedded deck is
that vector reversed); C++ exceptions are modelled by `Except GameError`.
-/

namespace AoF

/-- A playing card (C++ `aof::Card`): rank value 2..14 as produced by
`Card::getRankValue`, and a suit code 0..3 standing for h, d, c, s.
The C++ class stores strings and converts via `RANK_VALUES`; the embedding
works directly with the numeric rank value, suits only ever being compared
for equality. -/
structure Card where
  rank : Nat
  suit : Nat
deriving DecidableEq

/-- Actions of the game (C++ `enum class Action`). -/
inductive Action where
  | FOLD
  | ALL_IN
  | DEAL
deriving DecidableEq

/-- The locally raised error conditions (`std::invalid_argument` /
`std::runtime_error` messages in the C++ sources). -/
inductive GameError where
  /-- "Only DEAL action allowed at chance node" -/
  | onlyDealAtChance
  /-- "Cannot apply action to terminal state" -/
  | terminalState
  /-- "Illegal action" -/
  | illegalAction
  /-- "Invalid action for non-chance node" -/
  | invalidForNonChance
  /-- "Not enough cards in deck" (`Deck::dealCards`) -/
  | notEnoughCards
  /-- "Cannot get returns for non-terminal state" -/
  | nonTerminalReturns
  /-- "Number of actions must be positive" (`Node::Node`) -/
  | nonPositiveActions
  /-- "Invalid action index" (`Node::updateRegret`) -/
  | invalidActionIndex
deriving DecidableEq

/-- `true` exactly on the error case of an `Except` result. -/
def isErr {ε α : Type} : Except ε α → Bool
  | Except.error _ => true
  | Except.ok _ => false

/-! ## Hand evaluator (`src/src/aof/poker_evaluator.cpp`) -/

/-- `PokerEvaluator::compareHands`: lexicographic comparison of score
vectors over their common prefix; 1 if the first is larger, -1 if smaller,
0 on a tie. -/
def compareHands : List Nat → List Nat → Int
  | a :: as, b :: bs =>
    if b < a then 1 else if a < b then -1 else compareHands as bs
  | _, _ => 0

/-- The rank values 14, 13, ..., 2 in descending order: the C++ evaluator
scans `for (int rank = 14; rank >= 2; --rank)`. -/
def descRanks : List Nat := (List.range 13).map (fun k => 14 - k)

/-- `PokerEvaluator::isFlush`: all cards share the suit of the first card;
an empty hand is not a flush. -/
def checkFlush (hand : List Card) : Bool :=
  match hand with
  | [] => false
  | c :: _ => hand.all (fun x => x.suit == c.suit)

/-- `PokerEvaluator::isStraight`: collect the distinct rank values in
ascending order (the C++ uses a `std::set<int>`); a straight needs 5
distinct ranks that are consecutive, or the wheel A-2-3-4-5 whose high
card is 5.  Returns the straight high card, or `none`. -/
def straightHigh (hand : List Card) : Option Nat :=
  let ranks := ((hand.map Card.rank).dedup).insertionSort (· ≤ ·)
  if ranks.length ≠ 5 then none
  else if (ranks.zip ranks.tail).all (fun p => p.2 == p.1 + 1) then
    some (ranks.getLastD 0)
  else if ranks = [2, 3, 4, 5, 14] then some 5
  else none

/-- Number of cards of rank value `r` in the hand (C++ `rankCounts`). -/
def countRank (hand : List Card) (r : Nat) : Nat := (hand.map Card.rank).count r

/-- `PokerEvaluator::makeScore`: the category rank followed by its
tiebreakers, most significant first. -/
def makeScore (handRank : Nat) (vals : List Nat) : List Nat := handRank :: vals

/-- Sort rank values in descending order (C++ `std::sort(rbegin, rend)`). -/
def sortDescNat (l : List Nat) : List Nat := l.insertionSort (fun a b => b ≤ a)

/-- `PokerEvaluator::evaluateFiveCardHand`: classify a 5-card hand into one
of the 9 categories (8 = straight flush ... 0 = high card) and produce the
score vector `[categoryRank, tiebreak1, ...]`. -/
def evaluateFiveCardHand (hand : List Card) : List Nat :=
  let cnt := fun r => countRank hand r
  let cardValues := sortDescNat (hand.map Card.rank)
  let isFlushHand := checkFlush hand
  let sh := straightHigh hand
  if isFlushHand = true ∧ sh.isSome = true then makeScore 8 [sh.getD 0]
  else
    match descRanks.find? (fun r => cnt r == 4) with
    | some quad => makeScore 7 [quad, (descRanks.find? (fun r => cnt r == 1)).getD 0]
    | none =>
      let trips := (descRanks.find? (fun r => cnt r == 3)).getD 0
      let fhPair := (descRanks.find? (fun r => cnt r == 2)).getD 0
      if 0 < trips ∧ 0 < fhPair then makeScore 6 [trips, fhPair]
      else if isFlushHand then makeScore 5 cardValues
      else if sh.isSome then makeScore 4 [sh.getD 0]
      else if 0 < trips then
        makeScore 3 (trips :: (descRanks.filter (fun r => cnt r == 1)).take 2)
      else
        let pairs := descRanks.filter (fun r => cnt r == 2)
        if 2 ≤ pairs.length then
          makeScore 2 [pairs.getD 0 0, pairs.getD 1 0,
                       (descRanks.find? (fun r => cnt r == 1)).getD 0]
        else if pairs.length == 1 then
          makeScore 1 (pairs.getD 0 0 :: (descRanks.filter (fun r => cnt r == 1)).take 3)
        else makeScore 0 cardValues

/-- `PokerEvaluator::generateCombinations`: all `k`-element sublists of the
card list, preserving the original order (the C++ recursion over a start
index produces exactly these). -/
def chooseCombos : Nat → List Card → List (List Card)
  | 0, _ => [[]]
  | _ + 1, [] => []
  | k + 1, c :: cs => (chooseCombos k cs).map (fun combo => c :: combo) ++ chooseCombos (k + 1) cs

/-- `PokerEvaluator::evaluateHand`: best score over all 5-card subsets of
hole cards plus community cards (`C(7,5) = 21` subsets for legal inputs). -/
def evaluateHand (holeCards communityCards : List Card) : List Nat :=
  let allCards := holeCards ++ communityCards
  (chooseCombos 5 allCards).foldl
    (fun best combo =>
      let score := evaluateFiveCardHand combo
      if best.isEmpty = true ∨ compareHands score best = 1 then score else best) []

/-! ## Regret-matching node (`src/src/mccfr/node.cpp`) -/

/-- `mccfr::Node`: per-information-set accumulator. -/
structure Node where
  regretSum : List ℚ
  strategy : List ℚ
  strategySum : List ℚ
  visitCount : Nat
deriving DecidableEq

/-- The node produced by `Node::Node(int)` after its argument check
passed: all three vectors are zero-filled with `numActions` entries. -/
def freshNode (n : Nat) : Node :=
  { regretSum := List.replicate n 0
    strategy := List.replicate n 0
    strategySum := List.replicate n 0
    visitCount := 0 }

/-- `Node::Node(int numActions)`: throws `std::invalid_argument` when
`numActions <= 0`, otherwise builds zero-filled vectors. -/
def mkNode (n : Int) : Except GameError Node :=
  if n ≤ 0 then Except.error GameError.nonPositiveActions
  else Except.ok (freshNode n.toNat)

/-- `Node::Node()`: the default constructor delegates to `Node(3)`
(FOLD, ALL_IN, DEAL), e.g. when the trainer's information-set map creates
a node for an unseen key. -/
def defaultNode : Except GameError Node := mkNode 3

/-- `Node::normalizeStrategy`: regret matching.  Clip negative regrets to
zero; if the clipped sum is positive divide by it, otherwise fall back to
the uniform distribution over the action count. -/
def normalizeStrategy (nd : Node) : Node :=
  let clipped := nd.regretSum.map (fun r => max r 0)
  let nsum := clipped.sum
  if 0 < nsum then { nd with strategy := clipped.map (fun x => x / nsum) }
  else { nd with strategy := List.replicate nd.strategy.length ((1 : ℚ) / nd.strategy.length) }

/-- `Node::getStrategy(realizationWeight)`: bump the visit count, run
`normalizeStrategy`, accumulate `realizationWeight * strategy` into
`strategySum`, and return the just-computed strategy together with the
updated node. -/
def getStrategy (nd : Node) (w : ℚ) : Node × List ℚ :=
  let nd1 := normalizeStrategy { nd with visitCount := nd.visitCount + 1 }
  let nd2 := { nd1 with
    strategySum := List.zipWith (fun ss st => ss + w * st) nd1.strategySum nd1.strategy }
  (nd2, nd1.strategy)

/-- `Node::getAverageStrategy`: normalize `strategySum`, with the uniform
fallback when its total is not positive. -/
def getAverageStrategy (nd : Node) : List ℚ :=
  let ssum := nd.strategySum.sum
  if 0 < ssum then nd.strategySum.map (fun x => x / ssum)
  else List.replicate nd.strategySum.length ((1 : ℚ) / nd.strategySum.length)

/-- `Node::updateRegret(action, regret)`: bounds-check the action index
then add the regret value to `regretSum[action]`. -/
def updateRegret (nd : Node) (action : Int) (regret : ℚ) : Except GameError Node :=
  if action < 0 ∨ (nd.regretSum.length : Int) ≤ action then
    Except.error GameError.invalidActionIndex
  else
    let i := action.toNat
    Except.ok { nd with regretSum := nd.regretSum.set i (nd.regretSum.getD i 0 + regret) }

/-- One interaction with a node: either an `updateRegret` call or a
`getStrategy` call with the given reach weight. -/
inductive NodeOp where
  | upd (action : Int) (regret : ℚ)
  | strat (w : ℚ)

/-- Apply one `NodeOp`. -/
def nodeStep (nd : Node) : NodeOp → Except GameError Node
  | NodeOp.upd a v => updateRegret nd a v
  | NodeOp.strat w => Except.ok (getStrategy nd w).1

/-- Run a history of node interactions. -/
def runOps (nd : Node) : List NodeOp → Except GameError Node
  | [] => Except.ok nd
  | op :: ops =>
    match nodeStep nd op with
    | Except.error e => Except.error e
    | Except.ok nd1 => runOps nd1 ops

/-- A list of rationals is a probability distribution: entries in `[0,1]`
summing to exactly 1 (the spec tolerance `± 1e-9` is met a fortiori). -/
def isDist (l : List ℚ) : Prop := l.sum = 1 ∧ ∀ x ∈ l, 0 ≤ x ∧ x ≤ 1

/-! ## Game configuration (`src/src/aof/game.cpp` constructor results) -/

/-- The per-run configuration held by `aof::Game` after construction:
blinds, rake/jackpot parameters and the four *absolute* initial stacks
(the constructor multiplies stacks in big blinds by the big blind). -/
structure GameCfg where
  smallBlind : ℚ
  bigBlind : ℚ
  rake : ℚ
  jackpotFee : ℚ
  jackpotPct : ℚ
  initialStacks : List ℚ

/-! ## Game state (`src/src/aof/game_state.cpp`) -/

/-- `aof::GameState`.  `sidePots` entries pair a pot amount with the
ascending list of eligible seats (the C++ stores a vector built from a
`std::set<int>`). -/
structure GameState where
  gameOver : Bool
  nextPlayer : Nat
  pot : ℚ
  initialStacks : List ℚ
  playerStacks : List ℚ
  folded : List Bool
  allIn : List Nat
  deck : List Card
  holeCards : List Card
  communityCards : List Card
  sidePots : List (ℚ × List Nat)

/-- `GameState::GameState(const Game*)`: pot seeded with both blinds,
stacks copied from the game and the blinds deducted from seats 0 and 1. -/
def initialState (g : GameCfg) (d : List Card) : GameState :=
  { gameOver := false
    nextPlayer := 0
    pot := g.smallBlind + g.bigBlind
    initialStacks := g.initialStacks
    playerStacks :=
      (g.initialStacks.set 0 (g.initialStacks.getD 0 0 - g.smallBlind)).set 1
        (g.initialStacks.getD 1 0 - g.bigBlind)
    folded := List.replicate 4 false
    allIn := []
    deck := d
    holeCards := []
    communityCards := []
    sidePots := [] }

/-- `GameState::isChanceNode`: no hole cards dealt yet and not over. -/
def isChanceNode (s : GameState) : Bool := s.holeCards.isEmpty && !s.gameOver

/-- `GameState::getActivePlayerCount`: seats not folded. -/
def activeCount (s : GameState) : Nat := s.folded.countP (fun b => !b)

/-- `GameState::getLegalActions`: `[DEAL]` at the chance node, nothing
when the game is over or the seat to act has folded, otherwise
`[FOLD, ALL_IN]`. -/
def legalActions (s : GameState) : List Action :=
  if isChanceNode s then [Action.DEAL]
  else if s.gameOver then []
  else if s.folded.getD s.nextPlayer false then []
  else [Action.FOLD, Action.ALL_IN]

/-- `Deck::dealCards(count)`: split off `count` cards, or raise when the
deck is too short. -/
def dealN (n : Nat) (deck : List Card) : Except GameError (List Card × List Card) :=
  if deck.length < n then Except.error GameError.notEnoughCards
  else Except.ok (deck.take n, deck.drop n)

/-- `GameState::dealHoleCards`: a no-op when already dealt, otherwise draw
`4 * 2` cards. -/
def dealHoleCards (s : GameState) : Except GameError GameState :=
  if s.holeCards.isEmpty = false then Except.ok s
  else
    match dealN 8 s.deck with
    | Except.error e => Except.error e
    | Except.ok dealt => Except.ok { s with holeCards := dealt.1, deck := dealt.2 }

/-- The do-while loop of `GameState::advanceToNextPlayer`: keep stepping
`(p + 1) % 4` while the seat under the cursor has folded and more than one
seat is active.  The fuel bound 4 covers every reachable case (with at
least two active seats a non-folded seat occurs within four steps). -/
def advanceLoop (folded : List Bool) (cnt : Nat) : Nat → Nat → Nat
  | q, 0 => q
  | q, fuel + 1 =>
    if folded.getD q false = true ∧ 1 < cnt then advanceLoop folded cnt ((q + 1) % 4) fuel
    else q

/-- `GameState::advanceToNextPlayer`. -/
def advancePlayer (folded : List Bool) (cnt : Nat) (p : Nat) : Nat :=
  advanceLoop folded cnt ((p + 1) % 4) 4

/-- `GameState::shouldGameEnd`: at most one active seat, or every active
seat is all-in. -/
def shouldEnd (s : GameState) : Bool :=
  if activeCount s ≤ 1 then true
  else (List.range 4).all (fun p => s.folded.getD p false || s.allIn.contains p)

/-- Lexicographic order on (contribution, seat) pairs: `std::sort` on
`std::pair<double,int>`. -/
def lexLe (x y : ℚ × Nat) : Prop := x.1 < y.1 ∨ (x.1 = y.1 ∧ x.2 ≤ y.2)

instance : DecidableRel lexLe := fun x y => by unfold lexLe; infer_instance

instance : IsTotal (ℚ × Nat) lexLe := by
  constructor
  intro a b
  rcases lt_trichotomy a.1 b.1 with h | h | h
  · exact Or.inl (Or.inl h)
  · rcases Nat.le_total a.2 b.2 with h2 | h2
    · exact Or.inl (Or.inr ⟨h, h2⟩)
    · exact Or.inr (Or.inr ⟨h.symm, h2⟩)
  · exact Or.inr (Or.inl h)

instance : IsTrans (ℚ × Nat) lexLe := by
  constructor
  intro a b c hab hbc
  rcases hab with h1 | ⟨h1, h1n⟩
  · rcases hbc with h2 | ⟨h2, _⟩
    · exact Or.inl (h1.trans h2)
    · exact Or.inl (h2 ▸ h1)
  · rcases hbc with h2 | ⟨h2, h2n⟩
    · exact Or.inl (h1 ▸ h2)
    · exact Or.inr ⟨h1.trans h2, h1n.trans h2n⟩

/-- The main loop of `GameState::calculateSidePots`: walk the sorted
(contribution, seat) pairs; at each new contribution level with eligible
seats remaining, push a pot layer of size
`(level - previousLevel) * remainingContributors` for the currently
eligible seats; then retire the processed seat from both sets. -/
def sidePotLoop : ℚ → List Nat → List Nat → List (ℚ × Nat) → List (ℚ × List Nat)
  | _, _, _, [] => []
  | prev, elig, rem, (a, p) :: rest =>
    (if prev < a ∧ elig ≠ [] then
      (let inc := (a - prev) * (rem.length : ℚ)
       if 0 < inc then [(inc, elig)] else [])
     else [])
    ++ sidePotLoop a (elig.erase p) (rem.erase p) rest

/-- `GameState::calculateSidePots`, as a function of the per-seat data it
reads: contributions are `initialStacks - playerStacks`; seats with a
positive contribution are sorted ascending; all non-folded seats start out
eligible; every positive contributor starts out a remaining contributor. -/
def calcSidePots (istacks pstacks : List ℚ) (folded : List Bool) : List (ℚ × List Nat) :=
  let contribs := (List.range 4).filterMap
    (fun i =>
      let c := istacks.getD i 0 - pstacks.getD i 0
      if 0 < c then some (c, i) else none)
  let sorted := contribs.insertionSort lexLe
  let elig := (List.range 4).filter (fun i => !(folded.getD i false))
  let rem := contribs.map Prod.snd
  sidePotLoop 0 elig rem sorted

/-- `GameState::handleGameEnd`: deal the 5 community cards when missing,
then compute the side pots. -/
def handleGameEnd (s : GameState) : Except GameError GameState :=
  let afterCards :=
    if s.communityCards.isEmpty then
      match dealN 5 s.deck with
      | Except.error e => Except.error e
      | Except.ok dealt => Except.ok { s with communityCards := dealt.1, deck := dealt.2 }
    else Except.ok s
  match afterCards with
  | Except.error e => Except.error e
  | Except.ok t =>
    Except.ok { t with sidePots := calcSidePots t.initialStacks t.playerStacks t.folded }

/-- Tail of `GameState::applyAction` after the action mutation: advance
the cursor, then detect and handle the end of the hand. -/
def finishAction (s : GameState) : Except GameError GameState :=
  let s2 := { s with nextPlayer := advancePlayer s.folded (activeCount s) s.nextPlayer }
  if shouldEnd s2 then handleGameEnd { s2 with gameOver := true }
  else Except.ok s2

/-- `GameState::applyAction`. -/
def applyAction (s : GameState) (a : Action) : Except GameError GameState :=
  if isChanceNode s then
    if a = Action.DEAL then
      match dealHoleCards s with
      | Except.error e => Except.error e
      | Except.ok t => Except.ok { t with nextPlayer := 2 }
    else Except.error GameError.onlyDealAtChance
  else if s.gameOver then Except.error GameError.terminalState
  else if a ∈ legalActions s then
    match a with
    | Action.DEAL => Except.error GameError.invalidForNonChance
    | Action.FOLD => finishAction { s with folded := s.folded.set s.nextPlayer true }
    | Action.ALL_IN =>
      let player := s.nextPlayer
      let amount := s.playerStacks.getD player 0
      finishAction { s with
        pot := s.pot + amount
        playerStacks := s.playerStacks.set player 0
        allIn := if s.allIn.contains player then s.allIn
                 else s.allIn.orderedInsert (· ≤ ·) player }
  else Except.error GameError.illegalAction

/-- `GameState::clone` / the copy constructor: a full value copy of every
member, the deck included (the C++ deep-copies the owned `Deck`). -/
def clone (s : GameState) : GameState :=
  { gameOver := s.gameOver
    nextPlayer := s.nextPlayer
    pot := s.pot
    initialStacks := s.initialStacks
    playerStacks := s.playerStacks
    folded := s.folded
    allIn := s.allIn
    deck := s.deck
    holeCards := s.holeCards
    communityCards := s.communityCards
    sidePots := s.sidePots }

/-- Distribution of one side pot inside `GameState::getReturns`: score the
non-folded contributors, find the best hand, split the pot amount equally
among the seats tied for the best score. -/
def distributeOne (folded : List Bool) (holeCards communityCards : List Card)
    (acc : List ℚ) (pot : ℚ × List Nat) : List ℚ :=
  let scorers := pot.2.filterMap
    (fun p =>
      if folded.getD p false = true then none
      else some (evaluateHand ((holeCards.drop (2 * p)).take 2) communityCards, p))
  match scorers with
  | [] => acc
  | top :: rest =>
    let best := rest.foldl (fun b x => if compareHands x.1 b = 1 then x.1 else b) top.1
    let winners := scorers.filter (fun x => compareHands best x.1 = 0)
    let share := pot.1 / (winners.length : ℚ)
    winners.foldl (fun r x => r.set x.2 (r.getD x.2 0 + share)) acc

/-- `GameState::getReturns`: only valid on terminal states; distribute the
side pots to the best hands, compare total winnings with total investments
(warning flag beyond the `1e-6` tolerance), then subtract each seat's
investment.  Rake and jackpot parameters are never consulted. -/
def getReturnsE (s : GameState) : Except GameError ((List ℚ) × Bool) :=
  if s.gameOver = false then Except.error GameError.nonTerminalReturns
  else
    let investments := (List.range 4).map
      (fun i => s.initialStacks.getD i 0 - s.playerStacks.getD i 0)
    let base := s.sidePots.foldl
      (distributeOne s.folded s.holeCards s.communityCards) (List.replicate 4 0)
    let warn :=
      if (1 : ℚ) / 1000000 < |investments.sum - base.sum| then true else false
    Except.ok (List.zipWith (fun b inv => b - inv) base investments, warn)

/-- Run a sequence of actions from a state. -/
def runActions (s : GameState) : List Action → Except GameError GameState
  | [] => Except.ok s
  | a :: rest =>
    match applyAction s a with
    | Except.error e => Except.error e
    | Except.ok t => runActions t rest

/-- States reachable from some freshly constructed `GameState` by legal,
successful `applyAction` transitions. -/
inductive Reachable : GameState → Prop where
  | init (g : GameCfg) (d : List Card) : Reachable (initialState g d)
  | step {s : GameState} {a : Action} {t : GameState} :
      Reachable s → applyAction s a = Except.ok t → Reachable t

/-- The termination condition of `GameState::shouldGameEnd` as a plain
proposition: at most one non-folded seat, or every non-folded seat in the
all-in set. -/
def EndCond (s : GameState) : Prop :=
  activeCount s ≤ 1 ∨
    ∀ p ∈ List.range 4, s.folded.getD p false = false → s.allIn.contains p = true

/-- Structural facts maintained by every reachable state and needed to
settle the termination claims: before the deal nobody has folded or gone
all-in, and community cards exist only once the hand is over. -/
def StateInv (s : GameState) : Prop :=
  (s.holeCards = [] → s.folded = List.replicate 4 false ∧ s.allIn = []) ∧
  (s.gameOver = false → s.communityCards = [])

/-- Shape facts maintained by every `Node` reachable from `freshNode n`:
the three vectors keep their `n` entries and the accumulated strategy
stays entrywise non-negative (for non-negative reach weights). -/
def NodeInv (n : Nat) (nd : Node) : Prop :=
  nd.regretSum.length = n ∧ nd.strategy.length = n ∧ nd.strategySum.length = n ∧
    ∀ x ∈ nd.strategySum, 0 ≤ x

/-- The clipped regret total that `Node::normalizeStrategy` divides by. -/
def clipSum (nd : Node) : ℚ := (nd.regretSum.map (fun r => max r 0)).sum

/-! ## Concrete scenario data used by the end-to-end claims -/

/-- Hole cards of the demonstration hand (two per seat, in deal order). -/
def demoHole : List Card := [⟨2,0⟩,⟨2,1⟩,⟨2,2⟩,⟨2,3⟩,⟨3,0⟩,⟨3,1⟩,⟨3,2⟩,⟨3,3⟩]

/-- Community cards of the demonstration hand. -/
def demoComm : List Card := [⟨4,0⟩,⟨4,1⟩,⟨4,2⟩,⟨4,3⟩,⟨5,0⟩]

/-- A 13-card deck suffix: exactly the cards consumed by one dealt hand
(8 hole cards, then 5 community cards). -/
def demoDeck : List Card := demoHole ++ demoComm

/-- Blinds (0.4, 1.0) with the stakes-table rake/jackpot parameters of the
0.50/1.00 game and the default stacks of 8 big blinds per seat. -/
def demoCfg : GameCfg :=
  { smallBlind := 2/5, bigBlind := 1, rake := 1/20, jackpotFee := 1/20,
    jackpotPct := 1/2000, initialStacks := [8, 8, 8, 8] }

/-- State after DEAL in the demonstration hand. -/
def demoS1 : GameState :=
  { gameOver := false, nextPlayer := 2, pot := 7/5,
    initialStacks := [8,8,8,8], playerStacks := [38/5,7,8,8],
    folded := [false,false,false,false], allIn := [],
    deck := demoComm, holeCards := demoHole, communityCards := [], sidePots := [] }

/-- State after DEAL, seat 2 FOLD. -/
def demoS2 : GameState :=
  { demoS1 with folded := [false,false,true,false], nextPlayer := 3 }

/-- State after DEAL, seat 2 FOLD, seat 3 FOLD: seat 0 still to act. -/
def demoS3 : GameState :=
  { demoS1 with folded := [false,false,true,true], nextPlayer := 0 }

/-- Terminal state after DEAL and folds by seats 2, 3 and 0: seat 1 wins. -/
def demoS4 : GameState :=
  { gameOver := true, nextPlayer := 1, pot := 7/5,
    initialStacks := [8,8,8,8], playerStacks := [38/5,7,8,8],
    folded := [true,false,true,true], allIn := [],
    deck := [], holeCards := demoHole, communityCards := demoComm,
    sidePots := [(4/5,[1]),(3/5,[1])] }

/-- A legal configuration whose seats 2 and 3 hold less than one big
blind (0.1 and 0.2 chips): used to exhibit the side-pot leak. -/
def lowCfg : GameCfg :=
  { smallBlind := 2/5, bigBlind := 1, rake := 0, jackpotFee := 0,
    jackpotPct := 0, initialStacks := [8, 8, 1/10, 1/5] }

/-- Low-stack hand after DEAL. -/
def lowS1 : GameState :=
  { gameOver := false, nextPlayer := 2, pot := 7/5,
    initialStacks := [8,8,1/10,1/5], playerStacks := [38/5,7,1/10,1/5],
    folded := [false,false,false,false], allIn := [],
    deck := demoComm, holeCards := demoHole, communityCards := [], sidePots := [] }

/-- Low-stack hand after seat 2 goes all-in for 0.1. -/
def lowS2 : GameState :=
  { lowS1 with pot := 3/2, playerStacks := [38/5,7,0,1/5], allIn := [2], nextPlayer := 3 }

/-- Low-stack hand after seat 3 also goes all-in for 0.2. -/
def lowS3 : GameState :=
  { lowS1 with pot := 17/10, playerStacks := [38/5,7,0,0], allIn := [2,3], nextPlayer := 0 }

/-- Low-stack hand after seat 0 folds. -/
def lowS4 : GameState :=
  { lowS3 with folded := [true,false,false,false], nextPlayer := 1 }

/-- Terminal low-stack hand after seat 1 also folds: a showdown between
the two tiny all-in stacks, but the folded blinds exceed both stacks.
The recorded side pots total 0.7 while the pot is 1.7. -/
def lowS5 : GameState :=
  { gameOver := true, nextPlayer := 2, pot := 17/10,
    initialStacks := [8,8,1/10,1/5], playerStacks := [38/5,7,0,0],
    folded := [true,true,false,false], allIn := [2,3],
    deck := [], holeCards := demoHole, communityCards := demoComm,
    sidePots := [(2/5,[2,3]),(3/10,[3])] }

/-- An all-negative regret history: three `updateRegret` calls. -/
def opsNeg : List NodeOp := [NodeOp.upd 0 (-1), NodeOp.upd 1 (-2), NodeOp.upd 2 (-3)]

/-- The node reached from `freshNode 3` by `opsNeg`. -/
def nodeNeg : Node :=
  { regretSum := [-1, -2, -3], strategy := List.replicate 3 0,
    strategySum := List.replicate 3 0, visitCount := 0 }

/-- A history with one negative regret update followed by one
normalization (`getStrategy` with reach weight 1). -/
def opsC7 : List NodeOp := [NodeOp.upd 0 (-1), NodeOp.strat 1]

/-- The node reached from `freshNode 3` by `opsC7`: the normalization has
happened (`visitCount = 1`) yet `regretSum` still holds `-1`. -/
def nodeC7 : Node :=
  { regretSum := [-1, 0, 0], strategy := [1/3, 1/3, 1/3],
    strategySum := [1/3, 1/3, 1/3], visitCount := 1 }

/-! Constructed 5-card hands, one per category, used to check the category
order of the evaluator (spec section 8). -/

def sfHand : List Card := [⟨9, 0⟩, ⟨10, 0⟩, ⟨11, 0⟩, ⟨12, 0⟩, ⟨13, 0⟩]

def quadsHand : List Card := [⟨14, 0⟩, ⟨14, 1⟩, ⟨14, 2⟩, ⟨14, 3⟩, ⟨13, 0⟩]

def fullHouseHand : List Card := [⟨13, 0⟩, ⟨13, 1⟩, ⟨13, 2⟩, ⟨12, 0⟩, ⟨12, 1⟩]

def flushHand : List Card := [⟨2, 0⟩, ⟨5, 0⟩, ⟨7, 0⟩, ⟨9, 0⟩, ⟨11, 0⟩]

def broadwayHand : List Card := [⟨10, 0⟩, ⟨11, 1⟩, ⟨12, 2⟩, ⟨13, 3⟩, ⟨14, 0⟩]

def tripsHand : List Card := [⟨12, 0⟩, ⟨12, 1⟩, ⟨12, 2⟩, ⟨7, 0⟩, ⟨2, 1⟩]

def twoPairHand : List Card := [⟨11, 0⟩, ⟨11, 1⟩, ⟨9, 2⟩, ⟨9, 3⟩, ⟨3, 0⟩]

def pairHand : List Card := [⟨8, 0⟩, ⟨8, 1⟩, ⟨13, 2⟩, ⟨6, 3⟩, ⟨2, 0⟩]

def highCardHand : List Card := [⟨14, 0⟩, ⟨12, 1⟩, ⟨9, 2⟩, ⟨6, 3⟩, ⟨3, 0⟩]

def wheelHand : List Card := [⟨14, 0⟩, ⟨2, 1⟩, ⟨3, 2⟩, ⟨4, 3⟩, ⟨5, 0⟩]

/-! ## Helper lemmas: concrete transitions of the demonstration hands -/

theorem rangeFour : List.range 4 = [0, 1, 2, 3] := rfl

theorem demo_step1 : applyAction (initialState demoCfg demoDeck) Action.DEAL = Except.ok demoS1 := by
  norm_num [applyAction, initialState, isChanceNode, dealHoleCards, dealN,
    demoCfg, demoDeck, demoS1, demoHole, demoComm, List.replicate]

theorem demo_step2 : applyAction demoS1 Action.FOLD = Except.ok demoS2 := by
  simp +decide [applyAction, isChanceNode, legalActions, finishAction, advancePlayer,
    advanceLoop, activeCount, shouldEnd, demoS1, demoS2, demoHole, demoComm]

theorem demo_step3 : applyAction demoS2 Action.FOLD = Except.ok demoS3 := by
  simp +decide [applyAction, isChanceNode, legalActions, finishAction, advancePlayer,
    advanceLoop, activeCount, shouldEnd, demoS1, demoS2, demoS3, demoHole, demoComm]

theorem demo_step4 : applyAction demoS3 Action.FOLD = Except.ok demoS4 := by
  norm_num [applyAction, isChanceNode, legalActions, finishAction, advancePlayer,
    advanceLoop, activeCount, shouldEnd, handleGameEnd, dealN, calcSidePots,
    sidePotLoop, lexLe, List.insertionSort, List.orderedInsert, List.filterMap,
    demoS1, demoS3, demoS4, demoHole, demoComm]
  simp +decide [rangeFour, List.filter_cons, List.filter_nil]

theorem demo_run3 :
    runActions (initialState demoCfg demoDeck) [Action.DEAL, Action.FOLD, Action.FOLD]
      = Except.ok demoS3 := by
  simp [runActions, demo_step1, demo_step2, demo_step3]

theorem demo_run4 :
    runActions (initialState demoCfg demoDeck)
      [Action.DEAL, Action.FOLD, Action.FOLD, Action.FOLD] = Except.ok demoS4 := by
  simp [runActions, demo_step1, demo_step2, demo_step3, demo_step4]

theorem demoEval : evaluateHand [⟨2,2⟩,⟨2,3⟩] demoComm = [7, 4, 5] := by decide

theorem demo_returns :
    getReturnsE demoS4 = Except.ok ([-2/5, 2/5, 0, 0], false) := by
  norm_num [getReturnsE, distributeOne, demoS4, demoHole, demoComm, rangeFour,
    List.filterMap, demoEval, compareHands, List.replicate, List.set_cons_succ,
    List.set_cons_zero, List.zipWith, List.sum_cons, List.sum_nil]

theorem low_step0 : applyAction (initialState lowCfg demoDeck) Action.DEAL = Except.ok lowS1 := by
  norm_num [applyAction, initialState, isChanceNode, dealHoleCards, dealN,
    lowCfg, demoDeck, lowS1, demoHole, demoComm, List.replicate]

theorem low_step1 : applyAction lowS1 Action.ALL_IN = Except.ok lowS2 := by
  simp +decide [applyAction, isChanceNode, legalActions, finishAction, advancePlayer,
    advanceLoop, activeCount, shouldEnd, List.orderedInsert, lowS1, lowS2, demoHole, demoComm]
  norm_num

theorem low_step2 : applyAction lowS2 Action.ALL_IN = Except.ok lowS3 := by
  simp +decide [applyAction, isChanceNode, legalActions, finishAction, advancePlayer,
    advanceLoop, activeCount, shouldEnd, List.orderedInsert, lowS1, lowS2, lowS3, demoHole, demoComm]
  norm_num

theorem low_step3 : applyAction lowS3 Action.FOLD = Except.ok lowS4 := by
  simp +decide [applyAction, isChanceNode, legalActions, finishAction, advancePlayer,
    advanceLoop, activeCount, shouldEnd, lowS1, lowS3, lowS4, demoHole, demoComm]

theorem low_step4 : applyAction lowS4 Action.FOLD = Except.ok lowS5 := by
  norm_num [applyAction, isChanceNode, legalActions, finishAction, advancePlayer,
    advanceLoop, activeCount, shouldEnd, handleGameEnd, dealN, calcSidePots,
    sidePotLoop, lexLe, List.insertionSort, List.orderedInsert, List.filterMap,
    lowS1, lowS3, lowS4, lowS5, demoHole, demoComm]
  simp +decide [rangeFour, List.filter_cons, List.filter_nil]

theorem low_run :
    runActions (initialState lowCfg demoDeck)
      [Action.DEAL, Action.ALL_IN, Action.ALL_IN, Action.FOLD, Action.FOLD]
      = Except.ok lowS5 := by
  simp [runActions, low_step0, low_step1, low_step2, low_step3, low_step4]

/-! ## Claim theorems (first batch) -/

/-- Claim C5: the evaluator's scores respect the category order
straight-flush > four-of-a-kind > full house > flush > straight >
three-of-a-kind > two pair > pair > high card on constructed hands of each
category (the score head identifies the category), and the A-2-3-4-5 wheel
straight scores with high card 5, strictly below the 10-J-Q-K-A broadway
straight. -/
theorem evaluator_category_order_and_wheel :
    evaluateFiveCardHand sfHand = [8, 13] ∧
    evaluateFiveCardHand quadsHand = [7, 14, 13] ∧
    evaluateFiveCardHand fullHouseHand = [6, 13, 12] ∧
    evaluateFiveCardHand flushHand = [5, 11, 9, 7, 5, 2] ∧
    evaluateFiveCardHand broadwayHand = [4, 14] ∧
    evaluateFiveCardHand tripsHand = [3, 12, 7, 2] ∧
    evaluateFiveCardHand twoPairHand = [2, 11, 9, 3] ∧
    evaluateFiveCardHand pairHand = [1, 8, 13, 6, 2] ∧
    evaluateFiveCardHand highCardHand = [0, 14, 12, 9, 6, 3] ∧
    compareHands (evaluateFiveCardHand sfHand) (evaluateFiveCardHand quadsHand) = 1 ∧
    compareHands (evaluateFiveCardHand quadsHand) (evaluateFiveCardHand fullHouseHand) = 1 ∧
    compareHands (evaluateFiveCardHand fullHouseHand) (evaluateFiveCardHand flushHand) = 1 ∧
    compareHands (evaluateFiveCardHand flushHand) (evaluateFiveCardHand broadwayHand) = 1 ∧
    compareHands (evaluateFiveCardHand broadwayHand) (evaluateFiveCardHand tripsHand) = 1 ∧
    compareHands (evaluateFiveCardHand tripsHand) (evaluateFiveCardHand twoPairHand) = 1 ∧
    compareHands (evaluateFiveCardHand twoPairHand) (evaluateFiveCardHand pairHand) = 1 ∧
    compareHands (evaluateFiveCardHand pairHand) (evaluateFiveCardHand highCardHand) = 1 ∧
    evaluateFiveCardHand wheelHand = [4, 5] ∧
    compareHands (evaluateFiveCardHand wheelHand) (evaluateFiveCardHand broadwayHand) = -1 := by
  decide

/-- Claim C2 (counterexample): in the 4-player blinds-(0.4, 1.0) hand, after
DEAL, seat 2 FOLD and seat 3 FOLD the state is NOT terminal — seat 0 is to
act next with both actions available — contradicting the claimed immediate
termination. -/
theorem two_folds_not_terminal_cex :
    runActions (initialState demoCfg demoDeck) [Action.DEAL, Action.FOLD, Action.FOLD]
      = Except.ok demoS3 ∧
    demoS3.gameOver = false ∧
    demoS3.nextPlayer = 0 ∧
    legalActions demoS3 = [Action.FOLD, Action.ALL_IN] :=
  ⟨demo_run3, rfl, rfl, by decide⟩

/-- Claim C2 (amended): after DEAL and folds by seats 2 and 3 the hand is
not yet over (seat 0 is still to act); only after seat 0 also folds is the
state terminal.  At termination 5 community cards ARE dealt (even on a
fold-win), and `getReturns` gives seat 1 exactly +0.4 — no rake or jackpot
fee is deducted by `GameState::getReturns` — while seat 0 loses its 0.4
small blind and seats 2 and 3 lose 0 (their investment). -/
theorem two_folds_then_seat0_acts :
    runActions (initialState demoCfg demoDeck) [Action.DEAL, Action.FOLD, Action.FOLD]
      = Except.ok demoS3 ∧
    demoS3.gameOver = false ∧
    runActions (initialState demoCfg demoDeck)
      [Action.DEAL, Action.FOLD, Action.FOLD, Action.FOLD] = Except.ok demoS4 ∧
    demoS4.gameOver = true ∧
    demoS4.communityCards.length = 5 ∧
    getReturnsE demoS4 = Except.ok ([-2/5, 2/5, 0, 0], false) :=
  ⟨demo_run3, rfl, demo_run4, rfl, rfl, demo_returns⟩

/-- Claim C4 (counterexample): with legal per-seat stacks (8, 8, 0.1, 0.2)
big blinds, the terminal state where seats 2 and 3 are all-in and the
blinds folded records side pots totalling 0.7 while the pot is 1.7: the
folded blind contributions above the largest all-in level are dropped. -/
theorem side_pot_sum_cex :
    runActions (initialState lowCfg demoDeck)
      [Action.DEAL, Action.ALL_IN, Action.ALL_IN, Action.FOLD, Action.FOLD]
      = Except.ok lowS5 ∧
    lowS5.gameOver = true ∧
    ((lowS5.sidePots.map Prod.fst).sum = 7/10) ∧
    lowS5.pot = 17/10 ∧
    (lowS5.sidePots.map Prod.fst).sum ≠ lowS5.pot := by
  refine ⟨low_run, rfl, by norm_num [lowS5], by norm_num [lowS5], by norm_num [lowS5]⟩

/-- Claim C1 (counterexample): `GameState::getReturns` never applies rake,
jackpot fee or jackpot payout.  On the terminal fold-win state of the
0.50/1.00-parameter game (rake 0.05, fee 0.05, payout 0.05%), the returns
sum to exactly 0, not to `-(rake + jackpotFee - jackpotPayout)`; the
deviation 0.0993 is far beyond the 1e-6 tolerance. -/
theorem returns_ignore_rake_cex :
    runActions (initialState demoCfg demoDeck)
      [Action.DEAL, Action.FOLD, Action.FOLD, Action.FOLD] = Except.ok demoS4 ∧
    getReturnsE demoS4 = Except.ok ([-2/5, 2/5, 0, 0], false) ∧
    ([-2/5, 2/5, 0, 0] : List ℚ).sum = 0 ∧
    -(demoCfg.rake + demoCfg.jackpotFee - demoS4.pot * demoCfg.jackpotPct) = -(993/10000) ∧
    (1 : ℚ)/1000000 < |([-2/5, 2/5, 0, 0] : List ℚ).sum - -(993/10000)| := by
  refine ⟨demo_run4, demo_returns, by norm_num, by norm_num [demoCfg, demoS4], by norm_num [abs_of_nonneg]⟩

/-- Claim C9: cloning is a complete value copy — the clone agrees with the
original on every field (the C++ copy constructor copies all twelve
members, deep-copying the owned deck) — and applying an action to the
clone is the same pure transition as applying it to the original, so the
original's observable fields are untouched by branching on the clone. -/
theorem clone_value_semantics :
    ∀ (s : GameState) (a : Action), clone s = s ∧ applyAction (clone s) a = applyAction s a :=
  fun _ _ => ⟨rfl, rfl⟩

/-- Claim C10: the default-constructed node (used when the trainer's map
is indexed with an unseen key) has exactly 3 action slots; with no prior
regret updates its first `getStrategy` call returns the uniform
distribution (1/3, 1/3, 1/3); and a non-positive action count is rejected
with an invalid-argument error. -/
theorem default_node_three_actions :
    defaultNode = Except.ok (freshNode 3) ∧
    (freshNode 3).regretSum.length = 3 ∧
    (getStrategy (freshNode 3) 1).2 = [1/3, 1/3, 1/3] ∧
    ∀ n : Int, n ≤ 0 → isErr (mkNode n) = true := by
  refine ⟨rfl, rfl, ?_, ?_⟩
  · norm_num [getStrategy, normalizeStrategy, freshNode, List.replicate]
  · intro n hn
    simp [mkNode, hn, isErr]

/-- Witness for C10 at the concrete input `n = -1`. -/
theorem default_node_three_actions_witness :
    (-1 : Int) ≤ 0 ∧ isErr (mkNode (-1)) = true :=
  ⟨by norm_num, default_node_three_actions.2.2.2 (-1) (by norm_num)⟩

/-- Claim C8: applying an action outside the current legal-action set
(including any non-DEAL action at a chance node and any action on a
terminal state) yields a locally raised error and no successor state, and
querying returns on a non-terminal state yields a locally raised error;
neither path returns a state. -/
theorem illegal_action_and_returns_raise :
    (∀ (s : GameState) (a : Action), a ∉ legalActions s → isErr (applyAction s a) = true) ∧
    (∀ s : GameState, s.gameOver = false → isErr (getReturnsE s) = true) := by
  constructor
  · intro s a ha
    by_cases hch : isChanceNode s = true
    · have ha' : ¬(a = Action.DEAL) := by
        intro h
        exact ha (h ▸ by simp [legalActions, hch])
      simp [applyAction, hch, ha', isErr]
    · by_cases hov : s.gameOver = true
      · simp [applyAction, hch, hov, isErr]
      · simp [applyAction, hch, hov, ha, isErr]
  · intro s h
    simp [getReturnsE, h, isErr]

/-- Witness for C8: at the freshly constructed chance node FOLD is not
legal and errors; the non-terminal two-fold state errors on returns. -/
theorem illegal_action_and_returns_raise_witness :
    isErr (applyAction (initialState demoCfg demoDeck) Action.FOLD) = true ∧
    isErr (getReturnsE demoS3) = true :=
  ⟨illegal_action_and_returns_raise.1 (initialState demoCfg demoDeck) Action.FOLD (by decide),
   illegal_action_and_returns_raise.2 demoS3 rfl⟩

/-! ## Regret-matching node: distributions and sign invariants -/

theorem sum_map_div (l : List ℚ) (s : ℚ) : (l.map (fun x => x / s)).sum = l.sum / s := by
  induction l with
  | nil => simp
  | cons x xs ih => simp [ih, add_div]

theorem mem_zipWith_wsum {l1 l2 : List ℚ} {w : ℚ} {x : ℚ}
    (hx : x ∈ List.zipWith (fun ss st => ss + w * st) l1 l2) :
    ∃ a ∈ l1, ∃ b ∈ l2, x = a + w * b := by
  induction l1 generalizing l2 with
  | nil => simp at hx
  | cons a as ih =>
    cases l2 with
    | nil => simp at hx
    | cons b bs =>
      rcases List.mem_cons.mp hx with h | h
      · exact ⟨a, List.mem_cons_self a as, b, List.mem_cons_self b bs, h⟩
      · rcases ih h with ⟨a1, ha1, b1, hb1, hv⟩
        exact ⟨a1, List.mem_cons_of_mem a ha1, b1, List.mem_cons_of_mem b hb1, hv⟩

theorem normalize_regretSum (nd : Node) : (normalizeStrategy nd).regretSum = nd.regretSum := by
  unfold normalizeStrategy
  dsimp only
  split <;> rfl

theorem normalize_strategySum (nd : Node) :
    (normalizeStrategy nd).strategySum = nd.strategySum := by
  unfold normalizeStrategy
  dsimp only
  split <;> rfl

theorem normalize_strategy_length (nd : Node)
    (hlen : nd.regretSum.length = nd.strategy.length) :
    (normalizeStrategy nd).strategy.length = nd.strategy.length := by
  unfold normalizeStrategy
  dsimp only
  split <;> simp [hlen]

theorem normalize_isDist (nd : Node)
    (hlen : nd.regretSum.length = nd.strategy.length)
    (hpos : 1 ≤ nd.strategy.length) :
    isDist (normalizeStrategy nd).strategy := by
  unfold normalizeStrategy
  dsimp only
  have hnn : ∀ x ∈ nd.regretSum.map (fun r => max r 0), (0 : ℚ) ≤ x := by
    intro x hx
    rcases List.mem_map.mp hx with ⟨r, _, rfl⟩
    exact le_max_right r 0
  split
  case isTrue h =>
    constructor
    · rw [sum_map_div, div_self (ne_of_gt h)]
    · intro x hx
      rcases List.mem_map.mp hx with ⟨y, hy, rfl⟩
      exact ⟨div_nonneg (hnn y hy) (le_of_lt h),
        (div_le_one h).mpr (List.single_le_sum hnn y hy)⟩
  case isFalse h =>
    have hn : (0 : ℚ) < nd.strategy.length := by exact_mod_cast hpos
    constructor
    · rw [List.sum_replicate, nsmul_eq_mul]
      field_simp
    · intro x hx
      rcases List.eq_of_mem_replicate hx with rfl
      constructor
      · positivity
      · rw [div_le_one hn]
        exact_mod_cast hpos

theorem nodeInv_fresh (n : Nat) : NodeInv n (freshNode n) := by
  refine ⟨by simp [freshNode], by simp [freshNode], by simp [freshNode], ?_⟩
  intro x hx
  rcases List.eq_of_mem_replicate hx with rfl
  exact le_refl 0

theorem getStrategy_fst_fields (nd : Node) (w : ℚ) :
    (getStrategy nd w).1.regretSum = nd.regretSum ∧
    (getStrategy nd w).1.strategy = (normalizeStrategy { nd with visitCount := nd.visitCount + 1 }).strategy ∧
    (getStrategy nd w).1.strategySum =
      List.zipWith (fun ss st => ss + w * st) nd.strategySum
        (normalizeStrategy { nd with visitCount := nd.visitCount + 1 }).strategy := by
  refine ⟨?_, rfl, ?_⟩
  · simp [getStrategy, normalize_regretSum]
  · simp [getStrategy, normalize_strategySum]

theorem nodeInv_step (n : Nat) (nd nd1 : Node) (op : NodeOp)
    (hn : 1 ≤ n)
    (hinv : NodeInv n nd)
    (hw : ∀ x, op = NodeOp.strat x → 0 ≤ x)
    (hstep : nodeStep nd op = Except.ok nd1) : NodeInv n nd1 := by
  obtain ⟨hr, hs, hss, hnn⟩ := hinv
  cases op with
  | upd a v =>
    unfold nodeStep updateRegret at hstep
    dsimp only at hstep
    split at hstep
    · cases hstep
    · cases hstep
      exact ⟨by simpa using hr, hs, hss, hnn⟩
  | strat w =>
    have hw0 : 0 ≤ w := hw w rfl
    unfold nodeStep at hstep
    cases hstep
    obtain ⟨h1, h2, h3⟩ := getStrategy_fst_fields nd w
    have hdist : isDist (normalizeStrategy { nd with visitCount := nd.visitCount + 1 }).strategy :=
      normalize_isDist _ (by simpa using hr.trans hs.symm) (by simpa using hs ▸ hn)
    have hlen2 : (normalizeStrategy { nd with visitCount := nd.visitCount + 1 }).strategy.length = n := by
      rw [normalize_strategy_length _ (by simpa using hr.trans hs.symm)]
      simpa using hs
    refine ⟨by simpa [h1] using hr, ?_, ?_, ?_⟩
    · simpa [h2] using hlen2
    · rw [h3]
      simp [List.length_zipWith, hss, hlen2]
    · intro x hx
      rw [h3] at hx
      rcases mem_zipWith_wsum hx with ⟨a, ha, b, hb, rfl⟩
      have hb0 : 0 ≤ b := (hdist.2 b hb).1
      have ha0 : 0 ≤ a := hnn a ha
      positivity

theorem nodeInv_runOps (n : Nat) (ops : List NodeOp) (nd nd1 : Node)
    (hn : 1 ≤ n)
    (hinv : NodeInv n nd)
    (hw : ∀ x, NodeOp.strat x ∈ ops → 0 ≤ x)
    (hrun : runOps nd ops = Except.ok nd1) : NodeInv n nd1 := by
  induction ops generalizing nd with
  | nil =>
    unfold runOps at hrun
    cases hrun
    exact hinv
  | cons op rest ih =>
    unfold runOps at hrun
    split at hrun
    · cases hrun
    case h_2 nd2 hstep =>
      exact ih nd2
        (nodeInv_step n nd nd2 op hn hinv
          (fun x hx => hw x (hx ▸ List.mem_cons_self op rest)) hstep)
        (fun x hx => hw x (List.mem_cons_of_mem op hx)) hrun

theorem getStrategy_isDist (n : Nat) (nd : Node) (w : ℚ)
    (hn : 1 ≤ n) (hinv : NodeInv n nd) : isDist (getStrategy nd w).2 := by
  obtain ⟨hr, hs, _, _⟩ := hinv
  exact normalize_isDist _ (by simpa using hr.trans hs.symm) (by simpa using hs ▸ hn)

theorem getAverage_isDist (n : Nat) (nd : Node)
    (hn : 1 ≤ n) (hinv : NodeInv n nd) : isDist (getAverageStrategy nd) := by
  obtain ⟨_, _, hss, hnn⟩ := hinv
  unfold getAverageStrategy
  dsimp only
  split
  case isTrue h =>
    constructor
    · rw [sum_map_div, div_self (ne_of_gt h)]
    · intro x hx
      rcases List.mem_map.mp hx with ⟨y, hy, rfl⟩
      exact ⟨div_nonneg (hnn y hy) (le_of_lt h),
        (div_le_one h).mpr (List.single_le_sum hnn y hy)⟩
  case isFalse h =>
    have hn0 : (0 : ℚ) < nd.strategySum.length := by
      rw [hss]; exact_mod_cast hn
    constructor
    · rw [List.sum_replicate, nsmul_eq_mul]
      field_simp
    · intro x hx
      rcases List.eq_of_mem_replicate hx with rfl
      refine ⟨by positivity, ?_⟩
      rw [div_le_one hn0]
      rw [hss]
      exact_mod_cast hn

/-- Claim C6: after any history of regret updates (including all-negative
ones) and strategy queries with non-negative reach weights, both the
current strategy returned by `getStrategy` and the average strategy are
exact probability distributions (entries in `[0,1]`, summing to exactly 1,
hence within the `1e-9` tolerance), with the uniform fallback whenever the
clipped regret sum, respectively the accumulated strategy sum, is zero. -/
theorem node_strategies_are_distributions (n : Nat) (ops : List NodeOp) (nd : Node) (w : ℚ)
    (hn : 1 ≤ n)
    (hw : ∀ x, NodeOp.strat x ∈ ops → 0 ≤ x)
    (hrun : runOps (freshNode n) ops = Except.ok nd) :
    isDist (getStrategy nd w).2 ∧
    isDist (getAverageStrategy nd) ∧
    (clipSum nd = 0 → (getStrategy nd w).2 = List.replicate n ((1 : ℚ) / n)) ∧
    (nd.strategySum.sum = 0 → getAverageStrategy nd = List.replicate n ((1 : ℚ) / n)) := by
  have hinv := nodeInv_runOps n ops (freshNode n) nd hn (nodeInv_fresh n) hw hrun
  obtain ⟨hr, hs, hss, hnn⟩ := hinv
  refine ⟨getStrategy_isDist n nd w hn ⟨hr, hs, hss, hnn⟩,
    getAverage_isDist n nd hn ⟨hr, hs, hss, hnn⟩, ?_, ?_⟩
  · intro hzero
    show (normalizeStrategy { nd with visitCount := nd.visitCount + 1 }).strategy = _
    unfold normalizeStrategy
    dsimp only
    have hzero2 : (nd.regretSum.map (fun r => max r 0)).sum = 0 := hzero
    rw [hzero2]
    norm_num [hs]
  · intro hzero
    unfold getAverageStrategy
    dsimp only
    rw [hzero]
    norm_num [hss]

theorem toNatZero : Int.toNat 0 = 0 := rfl

theorem toNatOne : Int.toNat 1 = 1 := rfl

theorem toNatTwo : Int.toNat 2 = 2 := rfl

theorem nodeNeg_run : runOps (freshNode 3) opsNeg = Except.ok nodeNeg := by
  norm_num [runOps, nodeStep, updateRegret, freshNode, opsNeg, nodeNeg,
    toNatZero, toNatOne, toNatTwo,
    List.replicate, List.set_cons_zero, List.set_cons_succ, List.getD_cons_zero,
    List.getD_cons_succ]

/-- Witness for C6: the all-negative history `opsNeg` from a fresh 3-slot
node, queried with reach weight 1. -/
theorem node_strategies_are_distributions_witness :
    isDist (getStrategy nodeNeg 1).2 ∧
    isDist (getAverageStrategy nodeNeg) ∧
    (clipSum nodeNeg = 0 → (getStrategy nodeNeg 1).2 = List.replicate 3 ((1 : ℚ) / 3)) ∧
    (nodeNeg.strategySum.sum = 0 → getAverageStrategy nodeNeg = List.replicate 3 ((1 : ℚ) / 3)) :=
  node_strategies_are_distributions 3 opsNeg nodeNeg 1 (by norm_num)
    (fun x hx => by simp [opsNeg] at hx) nodeNeg_run

theorem nodeC7_run : runOps (freshNode 3) opsC7 = Except.ok nodeC7 := by
  norm_num [runOps, nodeStep, updateRegret, getStrategy, normalizeStrategy,
    freshNode, opsC7, nodeC7, max_def, clipSum, toNatZero, toNatOne, toNatTwo,
    List.replicate, List.set_cons_zero, List.set_cons_succ, List.getD_cons_zero,
    List.getD_cons_succ, List.zipWith, List.sum_cons, List.sum_nil]

/-- Claim C7 (counterexample): after one negative regret update and one
normalization (`getStrategy`, so `visitCount = 1`), `regretSum` still
holds the negative entry `-1`: normalization clips negatives only into the
derived strategy and never rewrites `regretSum`. -/
theorem regret_negative_after_normalization_cex :
    runOps (freshNode 3) opsC7 = Except.ok nodeC7 ∧
    1 ≤ nodeC7.visitCount ∧
    nodeC7.regretSum = [-1, 0, 0] ∧
    ¬ (∀ x ∈ nodeC7.regretSum, 0 ≤ x) := by
  refine ⟨nodeC7_run, by norm_num [nodeC7], rfl, ?_⟩
  intro h
  have hmem : (-1 : ℚ) ∈ nodeC7.regretSum := by simp [nodeC7]
  have := h (-1) hmem
  norm_num at this

/-- Claim C7 (amended): after any history of regret updates and strategy
queries with non-negative reach weights — whether or not a normalization
has occurred — every entry of `strategySum` is non-negative; `regretSum`,
by contrast, may retain negative entries. -/
theorem strategy_sum_nonneg (n : Nat) (ops : List NodeOp) (nd : Node)
    (hn : 1 ≤ n)
    (hw : ∀ x, NodeOp.strat x ∈ ops → 0 ≤ x)
    (hrun : runOps (freshNode n) ops = Except.ok nd) :
    ∀ x ∈ nd.strategySum, 0 ≤ x :=
  (nodeInv_runOps n ops (freshNode n) nd hn (nodeInv_fresh n) hw hrun).2.2.2

/-! ## Side-pot computation: sum lemmas -/

theorem sum_of_allEqQ {l : List ℚ} {a : ℚ} (h : ∀ x ∈ l, x = a) :
    l.sum = l.length * a := by
  induction l with
  | nil => simp
  | cons x xs ih =>
    have hx : x = a := h x (List.mem_cons_self x xs)
    have hr : xs.sum = xs.length * a := ih (fun y hy => h y (List.mem_cons_of_mem x hy))
    simp [hx, hr]
    ring

theorem sidePotLoop_allEq (l : List (ℚ × Nat)) :
    ∀ (prev : ℚ) (elig rem : List Nat), (∀ x ∈ l, x.1 = prev) →
    ((sidePotLoop prev elig rem l).map Prod.fst).sum = 0 := by
  induction l with
  | nil => intro prev elig rem _; simp [sidePotLoop]
  | cons hd tl ih =>
    intro prev elig rem h
    obtain ⟨a, p⟩ := hd
    have ha : a = prev := h (a, p) (List.mem_cons_self _ tl)
    unfold sidePotLoop
    dsimp only
    rw [if_neg (by rw [ha]; simp)]
    simpa using ih a (elig.erase p) (rem.erase p)
      (fun y hy => (ha.symm ▸ h y (List.mem_cons_of_mem _ hy)))

theorem sidePotLoop_sum (l : List (ℚ × Nat)) :
    ∀ (prev : ℚ) (elig rem : List Nat),
    l.Sorted lexLe →
    (∀ x ∈ l, prev ≤ x.1) →
    rem.Perm (l.map Prod.snd) →
    (l.map Prod.snd).Nodup →
    (∃ x ∈ l, x.2 ∈ elig ∧ ∀ y ∈ l, y.1 ≤ x.1) →
    ((sidePotLoop prev elig rem l).map Prod.fst).sum
      = (l.map Prod.fst).sum - prev * l.length := by
  induction l with
  | nil => intro prev elig rem _ _ _ _ _; simp [sidePotLoop]
  | cons hd tl ih =>
    intro prev elig rem hsort hprev hperm hnodup hmax
    obtain ⟨a, p⟩ := hd
    have hsort2 : tl.Sorted lexLe := hsort.of_cons
    have hrel : ∀ y ∈ tl, lexLe (a, p) y := (List.pairwise_cons.mp hsort).1
    have hprev2 : ∀ y ∈ tl, a ≤ y.1 := by
      intro y hy
      rcases hrel y hy with h | ⟨h, _⟩
      · exact le_of_lt h
      · exact le_of_eq h
    have hsplit : ((a, p) :: tl).map Prod.snd = p :: tl.map Prod.snd := rfl
    have hp_notin : p ∉ tl.map Prod.snd := (List.nodup_cons.mp (hsplit ▸ hnodup)).1
    have hnodup2 : (tl.map Prod.snd).Nodup := (List.nodup_cons.mp (hsplit ▸ hnodup)).2
    have hlen_rem : rem.length = tl.length + 1 := by
      have := hperm.length_eq
      simpa using this
    have hperm2 : (rem.erase p).Perm (tl.map Prod.snd) := by
      have h1 := hperm.erase p
      rw [hsplit, List.erase_cons_head] at h1
      exact h1
    have hha : prev ≤ a := hprev (a, p) (List.mem_cons_self _ tl)
    unfold sidePotLoop
    dsimp only
    by_cases hc : prev < a ∧ elig ≠ []
    · rw [if_pos hc]
      have hpos : (0 : ℚ) < (a - prev) * (rem.length : ℚ) := by
        apply mul_pos
        · linarith [hc.1]
        · rw [hlen_rem]
          positivity
      rw [if_pos hpos]
      rcases hmax with ⟨x, hxmem, hxelig, hxmax⟩
      rcases List.mem_cons.mp hxmem with hx | hx
      · -- the maximum is the head: every later level equals a
        have hxa : x.1 = a := by rw [hx]
        have htl_eq : ∀ y ∈ tl, y.1 = a := fun y hy =>
          le_antisymm (hxa ▸ hxmax y (List.mem_cons_of_mem _ hy)) (hprev2 y hy)
        have hz : ((sidePotLoop a (elig.erase p) (rem.erase p) tl).map Prod.fst).sum = 0 :=
          sidePotLoop_allEq tl a _ _ htl_eq
        have hsum_tl : (tl.map Prod.fst).sum = (tl.length : ℚ) * a := by
          have h1 := sum_of_allEqQ (l := tl.map Prod.fst) (a := a) (by
            intro z hz2
            rcases List.mem_map.mp hz2 with ⟨y, hy, rfl⟩
            exact htl_eq y hy)
          simpa using h1
        simp only [List.map_append, List.sum_append, List.map_cons, List.sum_cons,
          List.map_nil, List.sum_nil, hz, hsum_tl, List.length_cons, hlen_rem]
        push_cast
        ring
      · -- the maximum lies in the tail
        have hxne : x.2 ≠ p := by
          intro h
          exact hp_notin (h ▸ List.mem_map_of_mem Prod.snd hx)
        have ihres := ih a (elig.erase p) (rem.erase p) hsort2 hprev2 hperm2 hnodup2
          ⟨x, hx, (List.mem_erase_of_ne hxne).mpr hxelig,
            fun y hy => hxmax y (List.mem_cons_of_mem _ hy)⟩
        simp only [List.map_append, List.sum_append, List.map_cons, List.sum_cons,
          List.map_nil, List.sum_nil, ihres, List.length_cons, hlen_rem]
        push_cast
        ring
    · rw [if_neg hc]
      by_cases helig : elig = []
      · rcases hmax with ⟨x, _, hxelig, _⟩
        rw [helig] at hxelig
        exact absurd hxelig (List.not_mem_nil x.2)
      · have ha : a = prev := by
          have : ¬ prev < a := fun hlt => hc ⟨hlt, helig⟩
          linarith [lt_of_le_of_ne hha, this, hha]
        rcases hmax with ⟨x, hxmem, hxelig, hxmax⟩
        rcases List.mem_cons.mp hxmem with hx | hx
        · have hxa : x.1 = a := by rw [hx]
          have htl_eq : ∀ y ∈ tl, y.1 = a := fun y hy =>
            le_antisymm (hxa ▸ hxmax y (List.mem_cons_of_mem _ hy)) (hprev2 y hy)
          have hz : ((sidePotLoop a (elig.erase p) (rem.erase p) tl).map Prod.fst).sum = 0 :=
            sidePotLoop_allEq tl a _ _ htl_eq
          have hsum_tl : (tl.map Prod.fst).sum = (tl.length : ℚ) * a := by
            have h1 := sum_of_allEqQ (l := tl.map Prod.fst) (a := a) (by
              intro z hz2
              rcases List.mem_map.mp hz2 with ⟨y, hy, rfl⟩
              exact htl_eq y hy)
            simpa using h1
          simp only [List.nil_append, hz, List.map_cons, List.sum_cons, hsum_tl,
            List.length_cons]
          push_cast
          rw [ha]
          ring
        · have hxne : x.2 ≠ p := by
            intro h
            exact hp_notin (h ▸ List.mem_map_of_mem Prod.snd hx)
          have ihres := ih a (elig.erase p) (rem.erase p) hsort2 hprev2 hperm2 hnodup2
            ⟨x, hx, (List.mem_erase_of_ne hxne).mpr hxelig,
              fun y hy => hxmax y (List.mem_cons_of_mem _ hy)⟩
          simp only [List.nil_append, ihres, List.map_cons, List.sum_cons,
            List.length_cons]
          push_cast
          rw [ha]
          ring

theorem contribs_snd_sublist (c : Nat → ℚ) (L : List Nat) :
    ((L.filterMap (fun i => if 0 < c i then some (c i, i) else none)).map Prod.snd).Sublist L := by
  induction L with
  | nil => simp
  | cons i L ih =>
    by_cases h : 0 < c i
    · rw [List.filterMap_cons_some (b := (c i, i)) (by rw [if_pos h])]
      exact List.Sublist.cons₂ i ih
    · rw [List.filterMap_cons_none (by rw [if_neg h])]
      exact List.Sublist.cons i ih

theorem mem_contribs (c : Nat → ℚ) (L : List Nat) :
    ∀ x ∈ L.filterMap (fun i => if 0 < c i then some (c i, i) else none),
      x.1 = c x.2 ∧ 0 < c x.2 ∧ x.2 ∈ L := by
  intro x hx
  rcases List.mem_filterMap.mp hx with ⟨i, hi, hfi⟩
  by_cases h : 0 < c i
  · rw [if_pos h] at hfi
    cases hfi
    exact ⟨rfl, h, hi⟩
  · rw [if_neg h] at hfi
    cases hfi

theorem contribs_fst_sum (c : Nat → ℚ) (L : List Nat) (hnn : ∀ i ∈ L, 0 ≤ c i) :
    ((L.filterMap (fun i => if 0 < c i then some (c i, i) else none)).map Prod.fst).sum
      = (L.map c).sum := by
  induction L with
  | nil => simp
  | cons i L ih =>
    have hnn2 : ∀ j ∈ L, 0 ≤ c j := fun j hj => hnn j (List.mem_cons_of_mem i hj)
    by_cases h : 0 < c i
    · rw [List.filterMap_cons_some (b := (c i, i)) (by rw [if_pos h])]
      simp [ih hnn2]
    · have h0 : c i = 0 := le_antisymm (not_lt.mp h) (hnn i (List.mem_cons_self i L))
      rw [List.filterMap_cons_none (by rw [if_neg h])]
      simp [ih hnn2, h0]

theorem calcSidePots_sum (istacks pstacks : List ℚ) (folded : List Bool)
    (hnn : ∀ i ∈ List.range 4, 0 ≤ istacks.getD i 0 - pstacks.getD i 0)
    (hmax : ∃ j ∈ List.range 4, folded.getD j false = false ∧
        ∀ i ∈ List.range 4,
          istacks.getD i 0 - pstacks.getD i 0 ≤ istacks.getD j 0 - pstacks.getD j 0) :
    ((calcSidePots istacks pstacks folded).map Prod.fst).sum
      = ((List.range 4).map (fun i => istacks.getD i 0 - pstacks.getD i 0)).sum := by
  obtain ⟨j, hj4, hjf, hjmax⟩ := hmax
  unfold calcSidePots
  dsimp only
  by_cases hj0 : 0 < istacks.getD j 0 - pstacks.getD j 0
  · have hsorted := List.sorted_insertionSort lexLe
      ((List.range 4).filterMap (fun i =>
        if 0 < istacks.getD i 0 - pstacks.getD i 0 then
          some (istacks.getD i 0 - pstacks.getD i 0, i) else none))
    have hperm := List.perm_insertionSort lexLe
      ((List.range 4).filterMap (fun i =>
        if 0 < istacks.getD i 0 - pstacks.getD i 0 then
          some (istacks.getD i 0 - pstacks.getD i 0, i) else none))
    have hsub := contribs_snd_sublist (fun i => istacks.getD i 0 - pstacks.getD i 0) (List.range 4)
    have hnodupC := hsub.nodup (List.nodup_range 4)
    have hnodupS := ((hperm.map Prod.snd).nodup_iff).mpr hnodupC
    have hprev0 : ∀ x ∈ (((List.range 4).filterMap (fun i =>
        if 0 < istacks.getD i 0 - pstacks.getD i 0 then
          some (istacks.getD i 0 - pstacks.getD i 0, i) else none)).insertionSort lexLe),
        (0 : ℚ) ≤ x.1 := by
      intro x hx
      rcases mem_contribs _ _ x (hperm.subset hx) with ⟨h1, h2, _⟩
      rw [h1]
      exact le_of_lt h2
    have hwit : (istacks.getD j 0 - pstacks.getD j 0, j) ∈
        (((List.range 4).filterMap (fun i =>
          if 0 < istacks.getD i 0 - pstacks.getD i 0 then
            some (istacks.getD i 0 - pstacks.getD i 0, i) else none)).insertionSort lexLe) :=
      (hperm.mem_iff).mpr (List.mem_filterMap.mpr ⟨j, hj4, by rw [if_pos hj0]⟩)
    have hjelig : j ∈ (List.range 4).filter (fun i => !(folded.getD i false)) :=
      List.mem_filter.mpr ⟨hj4, by simpa using hjf⟩
    have hmaxS : ∀ y ∈ (((List.range 4).filterMap (fun i =>
        if 0 < istacks.getD i 0 - pstacks.getD i 0 then
          some (istacks.getD i 0 - pstacks.getD i 0, i) else none)).insertionSort lexLe),
        y.1 ≤ istacks.getD j 0 - pstacks.getD j 0 := by
      intro y hy
      rcases mem_contribs _ _ y (hperm.subset hy) with ⟨h1, _, h3⟩
      rw [h1]
      exact hjmax y.2 h3
    have hloop := sidePotLoop_sum _ 0
      ((List.range 4).filter (fun i => !(folded.getD i false)))
      (((List.range 4).filterMap (fun i =>
        if 0 < istacks.getD i 0 - pstacks.getD i 0 then
          some (istacks.getD i 0 - pstacks.getD i 0, i) else none)).map Prod.snd)
      hsorted hprev0 (hperm.map Prod.snd).symm hnodupS
      ⟨(istacks.getD j 0 - pstacks.getD j 0, j), hwit, hjelig, hmaxS⟩
    rw [hloop, zero_mul, sub_zero, List.Perm.sum_eq (hperm.map Prod.fst)]
    exact contribs_fst_sum _ _ hnn
  · have hall : ∀ i ∈ List.range 4, istacks.getD i 0 - pstacks.getD i 0 = 0 :=
      fun i hi => le_antisymm ((hjmax i hi).trans (not_lt.mp hj0)) (hnn i hi)
    have hcon : (List.range 4).filterMap (fun i =>
        if 0 < istacks.getD i 0 - pstacks.getD i 0 then
          some (istacks.getD i 0 - pstacks.getD i 0, i) else none) = [] := by
      rw [List.filterMap_eq_nil_iff]
      intro i hi
      rw [if_neg (by rw [hall i hi]; exact lt_irrefl 0)]
    rw [hcon]
    simp only [List.insertionSort, sidePotLoop, List.map_nil, List.sum_nil]
    symm
    apply List.sum_eq_zero
    intro x hx
    rcases List.mem_map.mp hx with ⟨i, hi, rfl⟩
    exact hall i hi

/-- Claim C4 (amended): for every terminal GameState whose side pots were
computed by `calculateSidePots` (as `handleGameEnd` does) and in which the
maximal total contribution is attained by some non-folded seat — which
holds in particular whenever all seats share the default equal stacks —
the side-pot amounts sum exactly to the pot. -/
theorem side_pot_conservation (s : GameState)
    (hpots : s.sidePots = calcSidePots s.initialStacks s.playerStacks s.folded)
    (hnn : ∀ i ∈ List.range 4, 0 ≤ s.initialStacks.getD i 0 - s.playerStacks.getD i 0)
    (hmax : ∃ j ∈ List.range 4, s.folded.getD j false = false ∧
        ∀ i ∈ List.range 4,
          s.initialStacks.getD i 0 - s.playerStacks.getD i 0
            ≤ s.initialStacks.getD j 0 - s.playerStacks.getD j 0)
    (hpot : s.pot = ((List.range 4).map
        (fun i => s.initialStacks.getD i 0 - s.playerStacks.getD i 0)).sum) :
    (s.sidePots.map Prod.fst).sum = s.pot := by
  rw [hpots, hpot]
  exact calcSidePots_sum s.initialStacks s.playerStacks s.folded hnn hmax

theorem demo_pots :
    calcSidePots demoS4.initialStacks demoS4.playerStacks demoS4.folded = demoS4.sidePots := by
  norm_num [calcSidePots, sidePotLoop, lexLe, List.insertionSort, List.orderedInsert,
    List.filterMap, demoS4, rangeFour]

/-- Witness for C4's amended claim: the fold-win terminal state of the
demonstration hand (contributions 0.4, 1, 0, 0; seat 1 non-folded and
maximal) has side pots 0.8 + 0.6 summing to the pot 1.4. -/
theorem side_pot_conservation_witness :
    (demoS4.sidePots.map Prod.fst).sum = demoS4.pot := by
  apply side_pot_conservation demoS4 demo_pots.symm
  · intro i hi
    rw [rangeFour] at hi
    simp only [List.mem_cons, List.mem_singleton] at hi
    rcases hi with rfl | rfl | rfl | rfl | h
    · norm_num [demoS4]
    · norm_num [demoS4]
    · norm_num [demoS4]
    · norm_num [demoS4]
    · cases h
  · refine ⟨1, by norm_num, rfl, ?_⟩
    intro i hi
    rw [rangeFour] at hi
    simp only [List.mem_cons, List.mem_singleton] at hi
    rcases hi with rfl | rfl | rfl | rfl | h
    · norm_num [demoS4]
    · norm_num [demoS4]
    · norm_num [demoS4]
    · norm_num [demoS4]
    · cases h
  · norm_num [demoS4, rangeFour]

theorem compareHands_self : ∀ s : List Nat, compareHands s s = 0 := by
  intro s
  induction s with
  | nil => rfl
  | cons a l ih => simp [compareHands, ih]

theorem foldl_best_mem (g : List Nat × Nat → List Nat → List Nat) :
    ∀ (rest : List (List Nat × Nat)) (s0 : List Nat),
    (∀ x b, g x b = x.1 ∨ g x b = b) →
    rest.foldl (fun b x => g x b) s0 ∈ s0 :: rest.map Prod.fst := by
  intro rest
  induction rest with
  | nil => intro s0 _; simp
  | cons x tl ih =>
    intro s0 hg
    have h1 := ih (g x s0) hg
    rw [List.foldl_cons, List.map_cons]
    rcases List.mem_cons.mp h1 with h | h
    · rw [h]
      rcases hg x s0 with h2 | h2
      · rw [h2]
        exact List.mem_cons_of_mem _ (List.mem_cons_self _ _)
      · rw [h2]
        exact List.mem_cons_self _ _
    · exact List.mem_cons_of_mem _ (List.mem_cons_of_mem _ h)

theorem sum_set_add : ∀ (l : List ℚ) (i : Nat) (x : ℚ), i < l.length →
    (l.set i (l.getD i 0 + x)).sum = l.sum + x := by
  intro l
  induction l with
  | nil => intro i x h; simp at h
  | cons a tl ih =>
    intro i x h
    cases i with
    | zero =>
      simp only [List.set_cons_zero, List.getD_cons_zero, List.sum_cons]
      ring
    | succ k =>
      have hk : k < tl.length := by simpa using h
      simp only [List.set_cons_succ, List.getD_cons_succ, List.sum_cons]
      rw [ih k x hk]
      ring

theorem winners_fold_sum :
    ∀ (ws : List (List Nat × Nat)) (acc : List ℚ) (share : ℚ),
    (∀ x ∈ ws, x.2 < acc.length) →
    (ws.foldl (fun r x => r.set x.2 (r.getD x.2 0 + share)) acc).sum
        = acc.sum + ws.length * share ∧
    (ws.foldl (fun r x => r.set x.2 (r.getD x.2 0 + share)) acc).length = acc.length := by
  intro ws
  induction ws with
  | nil => intro acc share _; simp
  | cons w tl ih =>
    intro acc share hmem
    have hw : w.2 < acc.length := hmem w (List.mem_cons_self w tl)
    have hlen1 : (acc.set w.2 (acc.getD w.2 0 + share)).length = acc.length := by simp
    have ihr := ih (acc.set w.2 (acc.getD w.2 0 + share)) share
      (fun x hx => by rw [hlen1]; exact hmem x (List.mem_cons_of_mem w hx))
    refine ⟨?_, by rw [List.foldl_cons, ihr.2, hlen1]⟩
    rw [List.foldl_cons, ihr.1, sum_set_add acc w.2 share hw, List.length_cons]
    push_cast
    ring

theorem filterMap_scorers (folded : List Bool) (h : Nat → List Nat) :
    ∀ (l : List Nat), (∀ p ∈ l, folded.getD p false = false) →
    l.filterMap (fun p => if folded.getD p false = true then none else some (h p, p))
      = l.map (fun p => (h p, p)) := by
  intro l
  induction l with
  | nil => intro _; rfl
  | cons p tl ih =>
    intro hall
    have hp : folded.getD p false = false := hall p (List.mem_cons_self p tl)
    rw [List.filterMap_cons_some (b := (h p, p)) (by rw [hp]; simp),
      ih (fun q hq => hall q (List.mem_cons_of_mem p hq)), List.map_cons]

theorem distributeOne_sum (folded : List Bool) (hc cc : List Card)
    (acc : List ℚ) (pot : ℚ × List Nat)
    (hlen : acc.length = 4)
    (hne : pot.2 ≠ [])
    (hmem : ∀ p ∈ pot.2, p < 4 ∧ folded.getD p false = false) :
    (distributeOne folded hc cc acc pot).sum = acc.sum + pot.1 ∧
    (distributeOne folded hc cc acc pot).length = 4 := by
  obtain ⟨amt, contributors⟩ := pot
  cases contributors with
  | nil => exact absurd rfl hne
  | cons p0 ptl =>
    unfold distributeOne
    dsimp only
    rw [filterMap_scorers folded (fun p => evaluateHand ((hc.drop (2 * p)).take 2) cc)
      (p0 :: ptl) (fun q hq => (hmem q hq).2)]
    rw [List.map_cons]
    set score := fun p => evaluateHand ((hc.drop (2 * p)).take 2) cc with hscore
    set best := (ptl.map (fun p => (score p, p))).foldl
      (fun b x => if compareHands x.1 b = 1 then x.1 else b) (score p0) with hbest
    set winners := ((score p0, p0) :: ptl.map (fun p => (score p, p))).filter
      (fun x => compareHands best x.1 = 0) with hwinners
    have hbest_mem : best ∈ score p0 :: (ptl.map (fun p => (score p, p))).map Prod.fst := by
      rw [hbest]
      exact foldl_best_mem (fun x b => if compareHands x.1 b = 1 then x.1 else b)
        (ptl.map (fun p => (score p, p))) (score p0)
        (fun x b => by by_cases h : compareHands x.1 b = 1 <;> simp [h])
    have hwin_ne : winners ≠ [] := by
      have : ∃ x ∈ (score p0, p0) :: ptl.map (fun p => (score p, p)), x.1 = best := by
        rcases List.mem_cons.mp hbest_mem with h | h
        · exact ⟨(score p0, p0), List.mem_cons_self _ _, h.symm⟩
        · rcases List.mem_map.mp h with ⟨y, hy, hyy⟩
          exact ⟨y, List.mem_cons_of_mem _ hy, hyy⟩
      rcases this with ⟨x, hx, hxb⟩
      have hxw : x ∈ winners := by
        rw [hwinners]
        refine List.mem_filter.mpr ⟨hx, ?_⟩
        rw [hxb]
        simp [compareHands_self]
      intro hemp
      rw [hemp] at hxw
      exact List.not_mem_nil x hxw
    have hwin_pos : 0 < winners.length := List.length_pos.mpr hwin_ne
    have hwin_mem : ∀ x ∈ winners, x.2 < acc.length := by
      intro x hx
      have hx2 := List.mem_of_mem_filter (hwinners ▸ hx)
      rw [hlen]
      rcases List.mem_cons.mp hx2 with h | h
      · rw [h]
        exact (hmem p0 (List.mem_cons_self p0 ptl)).1
      · rcases List.mem_map.mp h with ⟨y, hy, hyy⟩
        rw [← hyy]
        exact (hmem y (List.mem_cons_of_mem p0 hy)).1
    have hfold := winners_fold_sum winners acc (amt / (winners.length : ℚ)) hwin_mem
    refine ⟨?_, by rw [hfold.2, hlen]⟩
    rw [hfold.1]
    have hlen_ne : ((winners.length : ℚ)) ≠ 0 := by
      exact_mod_cast Nat.pos_iff_ne_zero.mp hwin_pos
    rw [mul_div_cancel₀ amt hlen_ne]

theorem sidePotLoop_pots (folded : List Bool) :
    ∀ (l : List (ℚ × Nat)) (prev : ℚ) (elig rem : List Nat),
    (∀ p ∈ elig, p < 4 ∧ folded.getD p false = false) →
    ∀ pot ∈ sidePotLoop prev elig rem l,
      pot.2 ≠ [] ∧ ∀ p ∈ pot.2, p < 4 ∧ folded.getD p false = false := by
  intro l
  induction l with
  | nil => intro prev elig rem _ pot hpot; simp [sidePotLoop] at hpot
  | cons hd tl ih =>
    intro prev elig rem helig pot hpot
    obtain ⟨a, p⟩ := hd
    unfold sidePotLoop at hpot
    dsimp only at hpot
    have helig2 : ∀ q ∈ elig.erase p, q < 4 ∧ folded.getD q false = false :=
      fun q hq => helig q (List.mem_of_mem_erase hq)
    rcases List.mem_append.mp hpot with h | h
    · by_cases hc : prev < a ∧ elig ≠ []
      · rw [if_pos hc] at h
        by_cases hinc : (0 : ℚ) < (a - prev) * (rem.length : ℚ)
        · rw [if_pos hinc] at h
          rcases List.mem_singleton.mp h with rfl
          exact ⟨hc.2, helig⟩
        · rw [if_neg hinc] at h
          exact absurd h (List.not_mem_nil pot)
      · rw [if_neg hc] at h
        exact absurd h (List.not_mem_nil pot)
    · exact ih a (elig.erase p) (rem.erase p) helig2 pot h

theorem calcSidePots_pots (istacks pstacks : List ℚ) (folded : List Bool) :
    ∀ pot ∈ calcSidePots istacks pstacks folded,
      pot.2 ≠ [] ∧ ∀ p ∈ pot.2, p < 4 ∧ folded.getD p false = false := by
  intro pot hpot
  unfold calcSidePots at hpot
  dsimp only at hpot
  refine sidePotLoop_pots folded _ 0 _ _ ?_ pot hpot
  intro p hp
  rcases List.mem_filter.mp hp with ⟨h1, h2⟩
  exact ⟨List.mem_range.mp h1, by simpa using h2⟩

theorem distribute_fold_sum (folded : List Bool) (hc cc : List Card) :
    ∀ (pots : List (ℚ × List Nat)) (acc : List ℚ),
    acc.length = 4 →
    (∀ pot ∈ pots, pot.2 ≠ [] ∧ ∀ p ∈ pot.2, p < 4 ∧ folded.getD p false = false) →
    (pots.foldl (distributeOne folded hc cc) acc).sum = acc.sum + (pots.map Prod.fst).sum ∧
    (pots.foldl (distributeOne folded hc cc) acc).length = 4 := by
  intro pots
  induction pots with
  | nil => intro acc hlen _; simp [hlen]
  | cons pot tl ih =>
    intro acc hlen hpots
    have h1 := distributeOne_sum folded hc cc acc pot hlen
      (hpots pot (List.mem_cons_self pot tl)).1 (hpots pot (List.mem_cons_self pot tl)).2
    have ihr := ih (distributeOne folded hc cc acc pot) h1.2
      (fun q hq => hpots q (List.mem_cons_of_mem pot hq))
    refine ⟨?_, by simpa using ihr.2⟩
    rw [List.foldl_cons, ihr.1, h1.1]
    simp
    ring

theorem zipWith_sub_sum : ∀ (l1 l2 : List ℚ), l1.length = l2.length →
    (List.zipWith (fun b inv => b - inv) l1 l2).sum = l1.sum - l2.sum := by
  intro l1
  induction l1 with
  | nil =>
    intro l2 h
    cases l2 with
    | nil => simp
    | cons b bs => simp at h
  | cons a tl ih =>
    intro l2 h
    cases l2 with
    | nil => simp at h
    | cons b bs =>
      have := ih bs (by simpa using h)
      simp [this]
      ring

/-- Claim C1 (amended): for every terminal GameState whose side pots were
computed by `calculateSidePots` and in which the maximal total
contribution is attained by a non-folded seat, `getReturns` succeeds with
the warning flag off and the returned payoffs sum to exactly zero:
`GameState::getReturns` never applies rake, jackpot fee or jackpot payout,
so the only zero-sum distortion would come from the side-pot leak itself;
a leak beyond 1e-6 raises the warning flag but `getReturns` still
succeeds on every terminal state (it never aborts). -/
theorem getReturns_zero_sum :
    (∀ s : GameState,
      s.gameOver = true →
      s.sidePots = calcSidePots s.initialStacks s.playerStacks s.folded →
      (∀ i ∈ List.range 4, 0 ≤ s.initialStacks.getD i 0 - s.playerStacks.getD i 0) →
      (∃ j ∈ List.range 4, s.folded.getD j false = false ∧ ∀ i ∈ List.range 4,
          s.initialStacks.getD i 0 - s.playerStacks.getD i 0
            ≤ s.initialStacks.getD j 0 - s.playerStacks.getD j 0) →
      ∃ r : List ℚ, getReturnsE s = Except.ok (r, false) ∧ r.sum = 0) ∧
    (∀ s : GameState, s.gameOver = true → isErr (getReturnsE s) = false) := by
  constructor
  · intro s hover hpots hnn hmax
    have hpots_prop : ∀ pot ∈ s.sidePots,
        pot.2 ≠ [] ∧ ∀ p ∈ pot.2, p < 4 ∧ s.folded.getD p false = false := by
      rw [hpots]
      exact calcSidePots_pots s.initialStacks s.playerStacks s.folded
    have hbase := distribute_fold_sum s.folded s.holeCards s.communityCards s.sidePots
      (List.replicate 4 0) (by simp) hpots_prop
    have hsum_pots : (s.sidePots.map Prod.fst).sum
        = ((List.range 4).map
            (fun i => s.initialStacks.getD i 0 - s.playerStacks.getD i 0)).sum := by
      rw [hpots]
      exact calcSidePots_sum s.initialStacks s.playerStacks s.folded hnn hmax
    have hbs : (s.sidePots.foldl (distributeOne s.folded s.holeCards s.communityCards)
          (List.replicate 4 0)).sum
        = ((List.range 4).map
            (fun i => s.initialStacks.getD i 0 - s.playerStacks.getD i 0)).sum := by
      rw [hbase.1, hsum_pots]
      simp
    unfold getReturnsE
    rw [if_neg (by simp [hover])]
    dsimp only
    rw [if_neg (by rw [hbs]; simp)]
    refine ⟨_, rfl, ?_⟩
    rw [zipWith_sub_sum _ _ (by rw [hbase.2]; simp)]
    rw [hbs]
    simp
  · intro s h
    unfold getReturnsE
    rw [if_neg (by simp [h])]
    rfl

theorem demo_hnn : ∀ i ∈ List.range 4,
    0 ≤ demoS4.initialStacks.getD i 0 - demoS4.playerStacks.getD i 0 := by
  intro i hi
  rw [rangeFour] at hi
  simp only [List.mem_cons, List.mem_singleton] at hi
  rcases hi with rfl | rfl | rfl | rfl | h
  · norm_num [demoS4]
  · norm_num [demoS4]
  · norm_num [demoS4]
  · norm_num [demoS4]
  · cases h

theorem demo_hmax : ∃ j ∈ List.range 4, demoS4.folded.getD j false = false ∧
    ∀ i ∈ List.range 4,
      demoS4.initialStacks.getD i 0 - demoS4.playerStacks.getD i 0
        ≤ demoS4.initialStacks.getD j 0 - demoS4.playerStacks.getD j 0 := by
  refine ⟨1, by norm_num, rfl, ?_⟩
  intro i hi
  rw [rangeFour] at hi
  simp only [List.mem_cons, List.mem_singleton] at hi
  rcases hi with rfl | rfl | rfl | rfl | h
  · norm_num [demoS4]
  · norm_num [demoS4]
  · norm_num [demoS4]
  · norm_num [demoS4]
  · cases h

/-- Witness for C1's amended claim: the fold-win terminal state of the
demonstration hand. -/
theorem getReturns_zero_sum_witness :
    (∃ r : List ℚ, getReturnsE demoS4 = Except.ok (r, false) ∧ r.sum = 0) ∧
    isErr (getReturnsE demoS4) = false :=
  ⟨getReturns_zero_sum.1 demoS4 rfl demo_pots.symm demo_hnn demo_hmax,
   getReturns_zero_sum.2 demoS4 rfl⟩

/-! ## Termination condition and reachable-state invariants -/

theorem shouldEnd_ext {s t : GameState} (hf : t.folded = s.folded) (ha : t.allIn = s.allIn) :
    shouldEnd t = shouldEnd s := by
  unfold shouldEnd activeCount
  rw [hf, ha]

theorem shouldEnd_iff (s : GameState) : shouldEnd s = true ↔ EndCond s := by
  unfold shouldEnd EndCond
  split
  case isTrue h =>
    constructor
    · intro _
      exact Or.inl h
    · intro _
      rfl
  case isFalse h =>
    rw [List.all_eq_true]
    constructor
    · intro hall
      refine Or.inr ?_
      intro p hp hf
      have h2 := hall p hp
      rw [hf] at h2
      simpa using h2
    · intro hcond
      rcases hcond with h1 | h1
      · exact absurd h1 h
      · intro p hp
        by_cases hf : s.folded.getD p false = true
        · rw [hf, Bool.true_or]
        · have h2 := h1 p hp (by simpa using hf)
          rw [h2, Bool.or_true]

theorem finishAction_spec {s1 t : GameState}
    (hov : s1.gameOver = false)
    (hcomm : s1.communityCards = [])
    (h : finishAction s1 = Except.ok t) :
    t.holeCards = s1.holeCards ∧
    (t.gameOver = true ↔ EndCond t) ∧
    (t.gameOver = true → t.communityCards.length = 5 ∧
        t.sidePots = calcSidePots t.initialStacks t.playerStacks t.folded) ∧
    (t.gameOver = false → t.communityCards = []) := by
  unfold finishAction at h
  dsimp only at h
  split at h
  case isTrue hend =>
    unfold handleGameEnd at h
    dsimp only at h
    rw [if_pos (by simp [hcomm]), dealN] at h
    by_cases hdeck : s1.deck.length < 5
    · rw [if_pos hdeck] at h
      dsimp only at h
      cases h
    · rw [if_neg hdeck] at h
      dsimp only at h
      cases h
      refine ⟨rfl, ?_, ?_, ?_⟩
      · constructor
        · intro _
          exact (shouldEnd_iff _).mp hend
        · intro _
          rfl
      · intro _
        refine ⟨?_, rfl⟩
        simp only [List.length_take]
        omega
      · intro hfalse
        cases hfalse
  case isFalse hend =>
    cases h
    refine ⟨rfl, ?_, ?_, fun _ => hcomm⟩
    · dsimp only
      rw [hov]
      constructor
      · intro hfalse
        cases hfalse
      · intro hcond
        exact (hend ((shouldEnd_iff _).mpr hcond)).elim
    · dsimp only
      intro hg
      rw [hov] at hg
      cases hg

theorem applyAction_spec {s t : GameState} {a : Action}
    (hinv : StateInv s) (h : applyAction s a = Except.ok t) :
    StateInv t ∧ (t.gameOver = true ↔ EndCond t) ∧
    (t.gameOver = true → t.communityCards.length = 5 ∧
      t.sidePots = calcSidePots t.initialStacks t.playerStacks t.folded) := by
  unfold applyAction at h
  split at h
  case isTrue hch =>
    have hche : s.holeCards = [] ∧ s.gameOver = false := by
      unfold isChanceNode at hch
      rw [Bool.and_eq_true] at hch
      exact ⟨List.isEmpty_iff.mp hch.1, by simpa using hch.2⟩
    obtain ⟨hfold, hall⟩ := hinv.1 hche.1
    by_cases ha : a = Action.DEAL
    · rw [if_pos ha] at h
      rw [dealHoleCards, if_neg (by simp [hche.1]), dealN] at h
      by_cases hdeck : s.deck.length < 8
      · rw [if_pos hdeck] at h
        dsimp only at h
        cases h
      · rw [if_neg hdeck] at h
        dsimp only at h
        cases h
        refine ⟨⟨?_, ?_⟩, ?_, ?_⟩
        · dsimp only
          intro hemp
          exfalso
          have hlen : (s.deck.take 8).length = 8 := by
            simp only [List.length_take]
            omega
          rw [hemp] at hlen
          simp at hlen
        · dsimp only
          intro _
          exact hinv.2 hche.2
        · dsimp only
          rw [hche.2]
          constructor
          · intro hfalse
            cases hfalse
          · intro hcond
            exfalso
            unfold EndCond activeCount at hcond
            dsimp only at hcond
            rw [hfold, hall] at hcond
            rcases hcond with hc1 | hc2
            · have h4 : (List.replicate 4 false).countP (fun b => !b) = 4 := rfl
              rw [h4] at hc1
              omega
            · have h0 := hc2 0 (by simp) rfl
              simp at h0
        · dsimp only
          rw [hche.2]
          intro hg
          cases hg
    · rw [if_neg ha] at h
      cases h
  case isFalse hch =>
    split at h
    case isTrue => cases h
    case isFalse hov =>
      have hov2 : s.gameOver = false := by simpa using hov
      have hcomm : s.communityCards = [] := hinv.2 hov2
      have hhne : s.holeCards ≠ [] := by
        intro hemp
        unfold isChanceNode at hch
        rw [hemp, hov2] at hch
        simp at hch
      split at h
      case isTrue hmem =>
        cases a with
        | DEAL => cases h
        | FOLD =>
          dsimp only at h
          have hspec := finishAction_spec (h := h) (by exact hov2) (by exact hcomm)
          refine ⟨⟨?_, hspec.2.2.2⟩, hspec.2.1, hspec.2.2.1⟩
          intro hemp
          rw [hspec.1] at hemp
          exact absurd hemp hhne
        | ALL_IN =>
          dsimp only at h
          have hspec := finishAction_spec (h := h) (by exact hov2) (by exact hcomm)
          refine ⟨⟨?_, hspec.2.2.2⟩, hspec.2.1, hspec.2.2.1⟩
          intro hemp
          rw [hspec.1] at hemp
          exact absurd hemp hhne
      case isFalse => cases h


theorem reachable_inv {s : GameState} (hr : Reachable s) : StateInv s := by
  induction hr with
  | init g d =>
    exact ⟨fun _ => ⟨rfl, rfl⟩, fun _ => rfl⟩
  | step hr hstep ih =>
    exact (applyAction_spec ih hstep).1

/-- Claim C3: after every successful `applyAction` transition from a
reachable state, the resulting state is terminal exactly when at most one
seat is non-folded or every non-folded seat is all-in (`EndCond`); and
whenever the resulting state is terminal, 5 community cards are present
and the stored side pots are those computed by `calculateSidePots`. -/
theorem terminal_iff_end_condition (s t : GameState) (a : Action)
    (hr : Reachable s) (h : applyAction s a = Except.ok t) :
    (t.gameOver = true ↔ EndCond t) ∧
    (t.gameOver = true → t.communityCards.length = 5 ∧
      t.sidePots = calcSidePots t.initialStacks t.playerStacks t.folded) :=
  ⟨(applyAction_spec (reachable_inv hr) h).2.1,
   (applyAction_spec (reachable_inv hr) h).2.2⟩

/-- Witness for C3 at the demonstration hand: the fold of seat 0 from the
reachable two-fold state produces the terminal state `demoS4`. -/
theorem terminal_iff_end_condition_witness :
    (demoS4.gameOver = true ↔ EndCond demoS4) ∧
    (demoS4.gameOver = true → demoS4.communityCards.length = 5 ∧
      demoS4.sidePots = calcSidePots demoS4.initialStacks demoS4.playerStacks demoS4.folded) :=
  terminal_iff_end_condition demoS3 demoS4 Action.FOLD
    (Reachable.step
      (Reachable.step
        (Reachable.step (Reachable.init demoCfg demoDeck) demo_step1)
        demo_step2)
      demo_step3)
    demo_step4

/-- Witness for C7's amended claim at the concrete history `opsC7`. -/
theorem strategy_sum_nonneg_witness : 0 ≤ nodeC7.strategySum.getD 0 0 :=
  strategy_sum_nonneg 3 opsC7 nodeC7 (by norm_num)
    (fun x hx => by
      simp only [opsC7, List.mem_cons, List.mem_singleton] at hx
      rcases hx with hx | hx | hx
      · exact absurd hx (by simp)
      · rcases NodeOp.strat.injEq .. ▸ hx with rfl
        norm_num
      · exact absurd hx (by simp))
    nodeC7_run (nodeC7.strategySum.getD 0 0) (by simp [nodeC7])

end AoF
